import Mathlib

/-!
Shallow embedding of the resource allocation and scheduling engine of the
rsproject repository (crate `logic`): time windows, the project calendar,
resources with unavailability periods, rate conversion, and the
`LocalResourcePool` allocation conflict check, together with theorems about
the capacity invariant and the error behaviour of the pool.

Modelling conventions:
* `chrono::DateTime<Utc>` instants are integers (seconds since the epoch);
  `date_naive()` is floor division by 86400, which for the positive divisor
  is the default Euclidean division `/` on `Int`.
* `chrono::NaiveDate` dates are integer day numbers (instant divided by 86400).
* `f64` rates are modelled as exact rationals.
* `uuid::Uuid` identifiers are natural numbers; the `Uuid::new_v4` fresh-id
  generation inside the pool is modelled by a `next_allocation_id` counter,
  and constructors that draw a fresh uuid take the id as an explicit argument.
* `HashMap` fields are association lists with insert-replaces-key semantics;
  `HashSet` and `Vec` fields are lists; `anyhow::Error` messages are mapped
  to the error kinds of the spec's error taxonomy.
-/

attribute [local semireducible] Rat.add Rat.mul Rat.inv Rat.sub

deriving instance DecidableEq for Except

namespace RsProject

/-- Error kinds of the engine. The source returns `anyhow` string messages;
each distinct failure message corresponds to one constructor here. -/
inductive AllocationError where
  | InvalidRange
  | InvalidRate
  | ResourceNotFound
  | ResourceUnavailable
  | OverCommitted
  | AllocationNotFound
deriving DecidableEq

/-- Number of seconds in one calendar day (UTC days in `chrono`). -/
def secondsPerDay : Int := 86400

/-- `TimeWindow` from `time_window.rs`: a pair of instants. The
`start < end` invariant is enforced by `TimeWindow.new`, not by the type. -/
structure TimeWindow where
  date_start : Int
  date_end : Int
deriving DecidableEq

/-- `TimeWindow::new`: fails with the `InvalidRange` kind when
`date_start >= date_end`. -/
def TimeWindow.new (date_start date_end : Int) : Except AllocationError TimeWindow :=
  if date_start ≥ date_end then .error .InvalidRange
  else .ok { date_start := date_start, date_end := date_end }

/-- `TimeWindow::overlaps`: half-open interval intersection test. -/
def TimeWindow.overlaps (self other : TimeWindow) : Bool :=
  decide (self.date_start < other.date_end) && decide (self.date_end > other.date_start)

/-- `TimeWindow::contains`: membership of an instant, `start <= t < end`. -/
def TimeWindow.contains (self : TimeWindow) (dt : Int) : Bool :=
  decide (dt ≥ self.date_start) && decide (dt < self.date_end)

/-- Midnight of the day after the day containing `current`; this is
`(current + Duration::days(1)).date_naive().and_hms_opt(0,0,0)` in
`TimeWindow::split_by_days`. -/
def nextMidnight (current : Int) : Int :=
  (current / secondsPerDay + 1) * secondsPerDay

/-- Loop of `TimeWindow::split_by_days`: emit the segment from `current` to
the next midnight (clipped to `date_end`) and continue from that midnight. -/
def splitGo (current date_end : Int) : List TimeWindow :=
  if _h : current < date_end then
    { date_start := current, date_end := min (nextMidnight current) date_end } ::
      splitGo (nextMidnight current) date_end
  else []
termination_by (date_end - current).toNat
decreasing_by
  simp only [nextMidnight, secondsPerDay]
  omega

/-- `TimeWindow::split_by_days`. -/
def TimeWindow.split_by_days (self : TimeWindow) : List TimeWindow :=
  splitGo self.date_start self.date_end

/-- Weekdays, as in `chrono::Weekday`. -/
inductive Weekday where
  | Mon | Tue | Wed | Thu | Fri | Sat | Sun
deriving DecidableEq

/-- Weekday of an epoch day number, modelling `chrono::NaiveDate::weekday`
(day 0 = 1970-01-01 was a Thursday). -/
def weekdayOfDay (d : Int) : Weekday :=
  if (d + 3) % 7 = 0 then .Mon
  else if (d + 3) % 7 = 1 then .Tue
  else if (d + 3) % 7 = 2 then .Wed
  else if (d + 3) % 7 = 3 then .Thu
  else if (d + 3) % 7 = 4 then .Fri
  else if (d + 3) % 7 = 5 then .Sat
  else .Sun

/-- `ProjectCalendar` from `project_calendar.rs`. -/
structure ProjectCalendar where
  working_days : List Weekday
  holidays : List Int
  working_hours_per_day : Nat
deriving DecidableEq

/-- `ProjectCalendar::default`: Monday through Friday, no holidays,
8 working hours per day. -/
def ProjectCalendar.default : ProjectCalendar :=
  { working_days := [.Mon, .Tue, .Wed, .Thu, .Fri]
    holidays := []
    working_hours_per_day := 8 }

/-- `ProjectCalendar::is_working_day`: weekday membership and not a holiday. -/
def ProjectCalendar.is_working_day (self : ProjectCalendar) (date : Int) : Bool :=
  self.working_days.contains (weekdayOfDay date) && !(self.holidays.contains date)

/-- `ProjectCalendar::count_working_days`: inclusive day-by-day scan from the
window's start date through its end date, counting working days. The source's
`while current <= end` loop over dates is the `List.range` scan below. -/
def ProjectCalendar.count_working_days (self : ProjectCalendar) (window : TimeWindow) : Nat :=
  (List.range
      ((window.date_end / secondsPerDay - window.date_start / secondsPerDay) + 1).toNat).countP
    (fun (i : Nat) => self.is_working_day (window.date_start / secondsPerDay + (i : Int)))

/-- `ProjectCalendar::working_hours_in_period`. -/
def ProjectCalendar.working_hours_in_period (self : ProjectCalendar) (window : TimeWindow) : Nat :=
  self.count_working_days window * self.working_hours_per_day

/-- `RateMeasure` from `resource.rs`. -/
inductive RateMeasure where
  | Daily | Hourly | Monthly
deriving DecidableEq

/-- `RateMeasure::convert` from `resource.rs`, arm for arm. Note that the
`Hourly -> Monthly` arm multiplies by 22 while the `Monthly -> Hourly` arm
divides by `22 * 8`. -/
def RateMeasure.convert (self : RateMeasure) (to_measure : RateMeasure) (rate : ℚ) : ℚ :=
  match self with
  | .Daily =>
    match to_measure with
    | .Daily => rate
    | .Hourly => rate / 8
    | .Monthly => rate * 22
  | .Hourly =>
    match to_measure with
    | .Hourly => rate
    | .Daily => rate * 8
    | .Monthly => rate * 22
  | .Monthly =>
    match to_measure with
    | .Daily => rate / 22
    | .Hourly => rate / (22 * 8)
    | .Monthly => rate

/-- `EngagementRate` from `resource.rs`: a validated rate wrapper. It is
present in the source but unused by the allocation path. -/
structure EngagementRate where
  engagement_rate : ℚ
deriving DecidableEq

/-- `EngagementRate::new`: accepts exactly the rates in `[0, 1]`. -/
def EngagementRate.new (rate : ℚ) : Except AllocationError EngagementRate :=
  if 0 ≤ rate ∧ rate ≤ 1 then .ok { engagement_rate := rate }
  else .error .InvalidRate

/-- Exception period kinds, re-exported by `lib.rs` and used by the service
layer and tests. -/
inductive ExceptionType where
  | Vacation | SickLeave | PersonalDay | Overtime
deriving DecidableEq

/-- `ExceptionPeriod`: a period during which a resource is unavailable. -/
structure ExceptionPeriod where
  period : TimeWindow
  exception_type : ExceptionType
deriving DecidableEq

/-- `Resource` (current generation): the struct used by `resource_pool.rs`
and the service layer. The `unavailable_periods` field is required by
`ResourceService::add_unavailable_period` and `Resource::is_available`. -/
structure Resource where
  id : Nat
  name : String
  rate : ℚ
  rate_measure : RateMeasure
  unavailable_periods : List ExceptionPeriod
deriving DecidableEq

/-- `Resource::new`: rejects `rate <= 0` with the `InvalidRate` kind; the
fresh `Uuid::new_v4` id is an explicit parameter; the exception list starts
empty. -/
def Resource.new (id : Nat) (name : String) (rate : ℚ) (measure : RateMeasure) :
    Except AllocationError Resource :=
  if rate ≤ 0 then .error .InvalidRate
  else .ok { id := id, name := name, rate := rate, rate_measure := measure
             unavailable_periods := [] }

/-- Modelled from the spec: `Resource::add_unavailable_period` is not among
the source files (only its caller `ResourceService::add_unavailable_period`
is); it appends the exception period to the resource's list. -/
def Resource.add_unavailable_period (self : Resource) (exception_period : ExceptionPeriod) :
    Resource :=
  { self with unavailable_periods := self.unavailable_periods ++ [exception_period] }

/-- Modelled from the spec: `Resource::is_available` is not among the source
files (only its callers and tests are). Spec section 4.3: return false when
the calendar counts zero working days in the period; return false when some
`unavailable_period` of the resource overlaps the period; return true
otherwise. Existing allocations are never consulted. -/
def Resource.is_available (self : Resource) (period : TimeWindow)
    (calendar : ProjectCalendar) : Bool :=
  if calendar.count_working_days period = 0 then false
  else if self.unavailable_periods.any (fun ep => ep.period.overlaps period) then false
  else true

/-- `Resource::get_base_rate`. -/
def Resource.get_base_rate (self : Resource) : ℚ := self.rate

/-- `Resource::get_converted_rate`. -/
def Resource.get_converted_rate (self : Resource) (to_measure : RateMeasure) : ℚ :=
  self.rate_measure.convert to_measure self.rate

/-- `AllocationRequest` from `resource_pool.rs`. -/
structure AllocationRequest where
  resource_id : Nat
  task_id : Nat
  project_id : Nat
  engagement_rate : ℚ
  time_window : TimeWindow
deriving DecidableEq

/-- `ResourceAllocation` from `resource_pool.rs`. -/
structure ResourceAllocation where
  id : Nat
  resource_id : Nat
  task_id : Nat
  project_id : Nat
  engagement_rate : ℚ
  time_window : TimeWindow
deriving DecidableEq

/-- `ResourceAllocation::new`; the fresh `Uuid::new_v4` id is an explicit
parameter. -/
def ResourceAllocation.new (request : AllocationRequest) (id : Nat) : ResourceAllocation :=
  { id := id
    resource_id := request.resource_id
    task_id := request.task_id
    project_id := request.project_id
    engagement_rate := request.engagement_rate
    time_window := request.time_window }

/-- `AllocationQueryResult` from `resource_pool.rs`. -/
structure AllocationQueryResult where
  allocations_list : List ResourceAllocation

/-- `AllocationQueryResult::check_correct_timewindow` from `resource_pool.rs`
(the current, overlap-based conflict check): filter the allocations whose
window overlaps the request window, sum their engagement rates, and accept
exactly when the total plus the request's rate stays at or below 1. -/
def AllocationQueryResult.check_correct_timewindow (self : AllocationQueryResult)
    (allocation_request : AllocationRequest) : Bool :=
  let overlapping_allocations := self.allocations_list.filter
    (fun ra => ra.time_window.overlaps allocation_request.time_window)
  let total_engagement : ℚ := (overlapping_allocations.map (fun ra => ra.engagement_rate)).sum
  decide (total_engagement + allocation_request.engagement_rate ≤ 1)

/-- `LocalResourcePool` from `resource_pool.rs`: the resources map (keyed by
resource id) and the allocations map (keyed by allocation id; each stored
allocation carries its own key in its `id` field, so the map is kept as the
list of its values). -/
structure LocalResourcePool where
  resources : List (Nat × Resource)
  allocations : List ResourceAllocation
  next_allocation_id : Nat
deriving DecidableEq

/-- `LocalResourcePool::default`: both maps empty. -/
def LocalResourcePool.default : LocalResourcePool :=
  { resources := [], allocations := [], next_allocation_id := 0 }

/-- `LocalResourcePool::check_resource_exists`. -/
def LocalResourcePool.check_resource_exists (self : LocalResourcePool)
    (resource_id : Nat) : Bool :=
  self.resources.any (fun kv => kv.1 == resource_id)

/-- `LocalResourcePool::get_resource_existing_allocations`: the stored
allocations referencing the given resource id. -/
def LocalResourcePool.get_resource_existing_allocations (self : LocalResourcePool)
    (resource_id : Nat) : List ResourceAllocation :=
  self.allocations.filter (fun a => a.resource_id == resource_id)

/-- `LocalResourcePool::check_allocation_correct`: resolve the resource,
check availability against the calendar, accept immediately when the
resource has no allocations, otherwise run the overlap-based capacity
check. -/
def LocalResourcePool.check_allocation_correct (self : LocalResourcePool)
    (request : AllocationRequest) (calendar : ProjectCalendar) :
    Except AllocationError Unit :=
  match self.resources.lookup request.resource_id with
  | none => .error .ResourceNotFound
  | some resource =>
    if !resource.is_available request.time_window calendar then
      .error .ResourceUnavailable
    else
      let existing_allocation_on_resource :=
        self.get_resource_existing_allocations request.resource_id
      if existing_allocation_on_resource.isEmpty then .ok ()
      else
        let aqr : AllocationQueryResult :=
          { allocations_list := existing_allocation_on_resource }
        if aqr.check_correct_timewindow request then .ok ()
        else .error .OverCommitted

/-- `LocalResourcePool::allocate` (`&mut self` becomes state passing): on a
passing check, insert a freshly identified allocation; on a failing check,
return the error with the pool untouched. -/
def LocalResourcePool.allocate (self : LocalResourcePool) (request : AllocationRequest)
    (calendar : ProjectCalendar) : Except AllocationError Unit × LocalResourcePool :=
  match self.check_allocation_correct request calendar with
  | .ok _ =>
    let allocation := ResourceAllocation.new request self.next_allocation_id
    (.ok (), { self with
                allocations := allocation :: self.allocations
                next_allocation_id := self.next_allocation_id + 1 })
  | .error e => (.error e, self)

/-- `LocalResourcePool::deallocate`: remove by id, failing with
`AllocationNotFound` when the id is absent. -/
def LocalResourcePool.deallocate (self : LocalResourcePool) (allocation_id : Nat) :
    Except AllocationError Unit × LocalResourcePool :=
  if self.allocations.any (fun a => a.id == allocation_id) then
    (.ok (), { self with
                allocations := self.allocations.eraseP (fun a => a.id == allocation_id) })
  else (.error .AllocationNotFound, self)

/-- `LocalResourcePool::add_resource`: unconditional map insert keyed by the
resource's own id. -/
def LocalResourcePool.add_resource (self : LocalResourcePool) (resource : Resource) :
    Except AllocationError Unit × LocalResourcePool :=
  (.ok (), { self with
              resources :=
                (resource.id, resource) :: self.resources.eraseP (fun kv => kv.1 == resource.id) })

/-- `LocalResourcePool::remove_resource`: map remove, failing with
`ResourceNotFound` when the id is absent. -/
def LocalResourcePool.remove_resource (self : LocalResourcePool) (id : Nat) :
    Except AllocationError Unit × LocalResourcePool :=
  if self.resources.any (fun kv => kv.1 == id) then
    (.ok (), { self with resources := self.resources.eraseP (fun kv => kv.1 == id) })
  else (.error .ResourceNotFound, self)

/-- One call against the pool interface, for reasoning about call
sequences. -/
inductive PoolOp where
  | allocate (request : AllocationRequest) (calendar : ProjectCalendar)
  | deallocate (allocation_id : Nat)
  | add_resource (resource : Resource)
  | remove_resource (id : Nat)
deriving DecidableEq

/-- Execute one pool call. -/
def runStep (p : LocalResourcePool) : PoolOp → Except AllocationError Unit × LocalResourcePool
  | .allocate request calendar => p.allocate request calendar
  | .deallocate allocation_id => p.deallocate allocation_id
  | .add_resource resource => p.add_resource resource
  | .remove_resource id => p.remove_resource id

/-- Execute a sequence of pool calls, keeping only the final state (a failed
call leaves the state unchanged, as in the source). -/
def runOps (p : LocalResourcePool) : List PoolOp → LocalResourcePool
  | [] => p
  | op :: rest => runOps (runStep p op).2 rest

/-- Every call in the sequence succeeds. -/
def opsAllOk (p : LocalResourcePool) : List PoolOp → Bool
  | [] => true
  | op :: rest =>
    (match (runStep p op).1 with
      | .ok _ => true
      | .error _ => false) && opsAllOk (runStep p op).2 rest

/-- An allocate call carries an engagement rate inside `[0, 1]`; other calls
are unconstrained. -/
def opRateOk : PoolOp → Bool
  | .allocate request _ =>
    decide (0 ≤ request.engagement_rate) && decide (request.engagement_rate ≤ 1)
  | _ => true

/-- The spec's capacity measure (section 8): the sum of `engagement_rate`
over the stored allocations of resource `r` whose window contains the
instant `t`. -/
def poolEngagementAt (p : LocalResourcePool) (r : Nat) (t : Int) : ℚ :=
  ((p.allocations.filter (fun a => a.resource_id == r && a.time_window.contains t)).map
    (fun a => a.engagement_rate)).sum

/-- The emitted day segments form a partition of `[s, e)`: the first starts
at `s`, each window is non-degenerate, every interior boundary is a UTC
midnight, each later window starts where the previous one ends, and the
last ends at `e`. -/
def windowsChain : Int → Int → List TimeWindow → Prop
  | s, e, [] => s = e
  | s, e, w :: ws =>
    w.date_start = s ∧ w.date_start < w.date_end ∧
      (ws ≠ [] → secondsPerDay ∣ w.date_end) ∧ windowsChain w.date_end e ws

namespace Legacy

/-- `AllocationTimeWindow` from `resource.rs` (the earlier design
generation of the allocation structures). -/
structure AllocationTimeWindow where
  date_start : Int
  date_end : Int
deriving DecidableEq

/-- `AllocationTimeWindow::include`: true exactly when the other window is
fully contained in this one (named `includeWindow` here because `include`
is a Lean keyword). -/
def AllocationTimeWindow.includeWindow (self other : AllocationTimeWindow) : Bool :=
  decide (other.date_start ≥ self.date_start) && decide (other.date_end ≤ self.date_end)

/-- Legacy `AllocationRequest` from `resource.rs`. -/
structure AllocationRequest where
  resource_id : Nat
  task_id : Nat
  project_id : Nat
  engagement_rate : ℚ
  time_window : AllocationTimeWindow
deriving DecidableEq

/-- Legacy `ResourceAllocation` from `resource.rs`. -/
structure ResourceAllocation where
  id : Nat
  resource_id : Nat
  task_id : Nat
  project_id : Nat
  engagement_rate : ℚ
  time_window : AllocationTimeWindow
deriving DecidableEq

/-- `AllocationQuerryResult::check_correct_timewindow` from `resource.rs`
(the earlier, containment-based conflict check): keep only the allocations
whose window fully contains the request window, then accept exactly when
the request rate plus their total stays at or below 1. -/
def check_correct_timewindow (allocations_list : List ResourceAllocation)
    (allocation_request : AllocationRequest) : Bool :=
  let same_time_window := allocations_list.filter
    (fun ra => ra.time_window.includeWindow allocation_request.time_window)
  let full_engagement_rate : ℚ :=
    allocation_request.engagement_rate + (same_time_window.map (fun ra => ra.engagement_rate)).sum
  decide (full_engagement_rate ≤ 1)

end Legacy

/-! Concrete fixtures for witnesses and counterexamples. Day 20094
(2025-01-06) is a Monday; day 20092 (2025-01-04) is a Saturday. -/

/-- A plain resource with id 1 and no unavailability. -/
def resB : Resource :=
  { id := 1, name := "R", rate := 1000, rate_measure := .Hourly, unavailable_periods := [] }

/-- One working Monday: 2025-01-06 UTC. -/
def wMon : TimeWindow := { date_start := 20094 * 86400, date_end := 20095 * 86400 }

/-- A full week from Monday 2025-01-06. -/
def wWeek : TimeWindow := { date_start := 20094 * 86400, date_end := 20101 * 86400 }

/-- A resource with a vacation exception over days 20110-20115. -/
def resV : Resource :=
  { id := 2, name := "V", rate := 1000, rate_measure := .Hourly
    unavailable_periods :=
      [{ period := { date_start := 20110 * 86400, date_end := 20115 * 86400 }
         exception_type := .Vacation }] }

/-- A pool holding only `resV`. -/
def poolV : LocalResourcePool :=
  { resources := [(2, resV)], allocations := [], next_allocation_id := 0 }

/-- A request by `resV` whose window overlaps the vacation. -/
def reqV : AllocationRequest :=
  { resource_id := 2, task_id := 1, project_id := 1, engagement_rate := 1/2
    time_window := { date_start := 20112 * 86400, date_end := 20117 * 86400 } }

/-- A pool holding only `resB`, with no allocations. -/
def poolB : LocalResourcePool :=
  { resources := [(1, resB)], allocations := [], next_allocation_id := 0 }

/-- A request for `resB` whose engagement rate 2 lies outside `[0, 1]`. -/
def reqRate2 : AllocationRequest :=
  { resource_id := 1, task_id := 1, project_id := 1, engagement_rate := 2, time_window := wMon }

/-- A pool holding `resB` together with a dangling-prone allocation of it. -/
def poolDangle : LocalResourcePool :=
  { resources := [(1, resB)]
    allocations :=
      [{ id := 0, resource_id := 1, task_id := 1, project_id := 1, engagement_rate := 1/2
         time_window := wMon }]
    next_allocation_id := 1 }

/-- A pool holding `resB` and one committed allocation of 4/5 over `wWeek`. -/
def poolC2 : LocalResourcePool :=
  { resources := [(1, resB)]
    allocations :=
      [{ id := 0, resource_id := 1, task_id := 1, project_id := 1, engagement_rate := 4/5
         time_window := wWeek }]
    next_allocation_id := 1 }

/-- A further request of 3/10 of `resB` over the same week. -/
def reqC2 : AllocationRequest :=
  { resource_id := 1, task_id := 2, project_id := 1, engagement_rate := 3/10
    time_window := wWeek }

/-- A sequence of calls whose allocate rates all lie in `[0, 1]`. -/
def opsGood : List PoolOp :=
  [.add_resource resB,
   .allocate { resource_id := 1, task_id := 1, project_id := 1, engagement_rate := 1/2
               time_window := wMon } ProjectCalendar.default]

/-- A sequence of calls that all succeed although the allocate rate is 2. -/
def opsBad : List PoolOp :=
  [.add_resource resB, .allocate reqRate2 ProjectCalendar.default]

/-- The invariant carried through every pool call: all stored engagement
rates are nonnegative and at every resource and instant the committed
engagement sums to at most 1. -/
def PoolInv (p : LocalResourcePool) : Prop :=
  (∀ a ∈ p.allocations, 0 ≤ a.engagement_rate) ∧ ∀ r t, poolEngagementAt p r t ≤ 1

/-! Helper lemmas. -/

/-- Saturdays and Sundays are not working days of the default calendar. -/
lemma default_weekend_not_working (d : Int)
    (h : weekdayOfDay d = Weekday.Sat ∨ weekdayOfDay d = Weekday.Sun) :
    ProjectCalendar.default.is_working_day d = false := by
  unfold ProjectCalendar.is_working_day ProjectCalendar.default
  rcases h with h | h <;> rw [h] <;> rfl

/-! Theorems for the claims. -/

/-- C5: the claimed rate-conversion round trip fails on the code. The
Hourly to Daily cycle does return the original rate, but converting an
hourly rate to monthly multiplies by 22 (not by the composed factor 176)
while converting back divides by 176, so the Hourly-Monthly-Hourly cycle
returns an eighth of the original rate: 1000 comes back as 125. -/
theorem c5_hourly_monthly_cycle_eval :
    (∀ R : ℚ, RateMeasure.convert .Daily .Hourly (RateMeasure.convert .Hourly .Daily R) = R) ∧
    RateMeasure.convert .Hourly .Monthly 1000 = 22000 ∧
    RateMeasure.convert .Monthly .Hourly (RateMeasure.convert .Hourly .Monthly 1000) = 125 := by
  refine ⟨fun R => ?_, by norm_num [RateMeasure.convert], by norm_num [RateMeasure.convert]⟩
  show R * 8 / 8 = R
  exact mul_div_cancel_right₀ R (by norm_num)

/-- C6: the current conflict check filters by `overlaps` and is not
equivalent to the earlier `include`-based variant: a request window that
partially overlaps an existing allocation's window (neither containing the
other) counts toward the capacity sum in the current check, which therefore
rejects, while the legacy containment-based check ignores the allocation and
accepts. -/
theorem c6_overlap_vs_include :
    ∃ (a : ResourceAllocation) (q : AllocationRequest)
      (aL : Legacy.ResourceAllocation) (qL : Legacy.AllocationRequest),
      aL.time_window.date_start = a.time_window.date_start ∧
      aL.time_window.date_end = a.time_window.date_end ∧
      qL.time_window.date_start = q.time_window.date_start ∧
      qL.time_window.date_end = q.time_window.date_end ∧
      aL.engagement_rate = a.engagement_rate ∧
      qL.engagement_rate = q.engagement_rate ∧
      a.time_window.overlaps q.time_window = true ∧
      aL.time_window.includeWindow qL.time_window = false ∧
      qL.time_window.includeWindow aL.time_window = false ∧
      AllocationQueryResult.check_correct_timewindow ⟨[a]⟩ q = false ∧
      Legacy.check_correct_timewindow [aL] qL = true := by
  refine ⟨⟨0, 1, 1, 1, 3/5, ⟨0, 10⟩⟩, ⟨1, 2, 1, 3/5, ⟨5, 15⟩⟩,
    ⟨0, 1, 1, 1, 3/5, ⟨0, 10⟩⟩, ⟨1, 2, 1, 3/5, ⟨5, 15⟩⟩, ?_⟩
  decide

/-- C7: under the default Monday-Friday, no-holiday calendar,
`count_working_days` returns 0 on every window whose inclusive date scan
covers exactly a Saturday and the following Sunday. -/
theorem c7_weekend_zero (w : TimeWindow)
    (hsat : weekdayOfDay (w.date_start / secondsPerDay) = Weekday.Sat)
    (hnext : w.date_end / secondsPerDay = w.date_start / secondsPerDay + 1) :
    ProjectCalendar.default.count_working_days w = 0 := by
  have h5 : (w.date_start / secondsPerDay + 3) % 7 = 5 := by
    by_contra hne
    have hcases : (w.date_start / secondsPerDay + 3) % 7 = 0 ∨
        (w.date_start / secondsPerDay + 3) % 7 = 1 ∨
        (w.date_start / secondsPerDay + 3) % 7 = 2 ∨
        (w.date_start / secondsPerDay + 3) % 7 = 3 ∨
        (w.date_start / secondsPerDay + 3) % 7 = 4 ∨
        (w.date_start / secondsPerDay + 3) % 7 = 6 := by omega
    unfold weekdayOfDay at hsat
    rcases hcases with h | h | h | h | h | h <;> simp [h] at hsat
  have hsun : weekdayOfDay (w.date_start / secondsPerDay + 1) = Weekday.Sun := by
    unfold weekdayOfDay
    rw [if_neg (by omega), if_neg (by omega), if_neg (by omega), if_neg (by omega),
      if_neg (by omega), if_neg (by omega)]
  unfold ProjectCalendar.count_working_days
  rw [hnext]
  have h2 : (w.date_start / secondsPerDay + 1 - w.date_start / secondsPerDay + 1).toNat = 2 := by
    omega
  rw [h2]
  rw [List.countP_eq_zero]
  intro i hi
  have hi2 : i = 0 ∨ i = 1 := by
    have := List.mem_range.mp hi
    omega
  rcases hi2 with rfl | rfl
  · have hw0 := default_weekend_not_working (w.date_start / secondsPerDay) (Or.inl hsat)
    simp only [Nat.cast_zero, add_zero]
    simp [hw0]
  · have hw1 := default_weekend_not_working (w.date_start / secondsPerDay + 1) (Or.inr hsun)
    simp only [Nat.cast_one]
    simp [hw1]

/-- C7 witness: the window from Saturday 2025-01-04 to Sunday 2025-01-05
satisfies the hypotheses and gets zero working days. -/
theorem c7_weekend_zero_witness :
    weekdayOfDay ((20092 * 86400 : Int) / secondsPerDay) = Weekday.Sat ∧
    (20093 * 86400 : Int) / secondsPerDay = (20092 * 86400 : Int) / secondsPerDay + 1 ∧
    ProjectCalendar.default.count_working_days
      { date_start := 20092 * 86400, date_end := 20093 * 86400 } = 0 :=
  ⟨by decide, by decide,
    c7_weekend_zero { date_start := 20092 * 86400, date_end := 20093 * 86400 }
      (by decide) (by decide)⟩

/-- C8: `allocate` is atomic. When the check fails the returned pool is the
input pool unchanged; when it succeeds the resources map is untouched and
exactly the one freshly identified allocation is prepended to the
allocations map. -/
theorem c8_allocate_atomic (p : LocalResourcePool) (request : AllocationRequest)
    (calendar : ProjectCalendar) :
    (∀ e, (p.allocate request calendar).1 = .error e → (p.allocate request calendar).2 = p) ∧
    ((p.allocate request calendar).1 = .ok () →
      (p.allocate request calendar).2.resources = p.resources ∧
      (p.allocate request calendar).2.allocations =
        ResourceAllocation.new request p.next_allocation_id :: p.allocations) := by
  unfold LocalResourcePool.allocate
  cases hc : p.check_allocation_correct request calendar with
  | ok u =>
    cases u
    refine ⟨fun e he => ?_, fun _ => ⟨rfl, rfl⟩⟩
    simp at he
  | error e =>
    refine ⟨fun e he => rfl, fun h => ?_⟩
    simp at h

/-- C8 witness: allocating against the empty pool fails (no such resource)
and returns the empty pool unchanged. -/
theorem c8_allocate_atomic_witness :
    (LocalResourcePool.default.allocate reqRate2 ProjectCalendar.default).1 =
      .error .ResourceNotFound ∧
    (LocalResourcePool.default.allocate reqRate2 ProjectCalendar.default).2 =
      LocalResourcePool.default :=
  ⟨by decide,
    (c8_allocate_atomic LocalResourcePool.default reqRate2 ProjectCalendar.default).1
      .ResourceNotFound (by decide)⟩

/-- C9: a successful `remove_resource` never cascades: the allocations map
is untouched and `get_resource_existing_allocations` answers exactly as
before for every resource id. -/
theorem c9_remove_resource_no_cascade (p : LocalResourcePool) (id rid : Nat)
    (h : p.resources.any (fun kv => kv.1 == id) = true) :
    (p.remove_resource id).1 = .ok () ∧
    (p.remove_resource id).2.allocations = p.allocations ∧
    (p.remove_resource id).2.get_resource_existing_allocations rid =
      p.get_resource_existing_allocations rid := by
  unfold LocalResourcePool.remove_resource
  rw [if_pos h]
  exact ⟨rfl, rfl, rfl⟩

/-- C9 witness: removing resource 1 from a pool that still holds an
allocation of resource 1 succeeds and leaves that dangling allocation
stored and queryable. -/
theorem c9_remove_resource_no_cascade_witness :
    poolDangle.resources.any (fun kv => kv.1 == 1) = true ∧
    ((poolDangle.remove_resource 1).1 = .ok () ∧
      (poolDangle.remove_resource 1).2.allocations = poolDangle.allocations ∧
      (poolDangle.remove_resource 1).2.get_resource_existing_allocations 1 =
        poolDangle.get_resource_existing_allocations 1) :=
  ⟨by decide, c9_remove_resource_no_cascade poolDangle 1 1 (by decide)⟩

/-- C4: with the requested resource present, `allocate` fails with
`ResourceUnavailable` exactly when `is_available` is false, and
`is_available` is false exactly when the calendar counts zero working days
in the window or some unavailable period of the resource overlaps it. -/
theorem c4_availability_gate (p : LocalResourcePool) (req : AllocationRequest)
    (cal : ProjectCalendar) (res : Resource)
    (hres : p.resources.lookup req.resource_id = some res) :
    ((p.allocate req cal).1 = .error .ResourceUnavailable ↔
      res.is_available req.time_window cal = false) ∧
    (res.is_available req.time_window cal = false ↔
      (cal.count_working_days req.time_window = 0 ∨
        ∃ ep ∈ res.unavailable_periods, ep.period.overlaps req.time_window = true)) := by
  constructor
  · unfold LocalResourcePool.allocate LocalResourcePool.check_allocation_correct
    cases hav : res.is_available req.time_window cal
    · simp [hres, hav]
    · simp [hres, hav]
      split_ifs <;> simp
  · unfold Resource.is_available
    split_ifs with h1 h2
    · simp [h1]
    · exact ⟨fun _ => Or.inr (List.any_eq_true.mp h2), fun _ => rfl⟩
    · constructor
      · intro h
        exact absurd h (by simp)
      · intro h
        rcases h with h | hex
        · exact absurd h h1
        · exact absurd (List.any_eq_true.mpr hex) h2

/-- C4 witness: a resource with a vacation exception, asked for a window
overlapping the vacation: the availability gate fires and matches the
zero-working-days-or-overlap characterisation. -/
theorem c4_availability_gate_witness :
    poolV.resources.lookup 2 = some resV ∧
    (((poolV.allocate reqV ProjectCalendar.default).1 = .error .ResourceUnavailable ↔
        resV.is_available reqV.time_window ProjectCalendar.default = false) ∧
      (resV.is_available reqV.time_window ProjectCalendar.default = false ↔
        (ProjectCalendar.default.count_working_days reqV.time_window = 0 ∨
          ∃ ep ∈ resV.unavailable_periods,
            ep.period.overlaps reqV.time_window = true))) :=
  ⟨by decide, c4_availability_gate poolV reqV ProjectCalendar.default resV (by decide)⟩

/-- C3: the code performs no engagement-rate validation on the allocate
path. The validating constructor `EngagementRate::new` rejects the rate 2,
yet `allocate` accepts a request carrying rate 2 against a pool holding the
resource with no allocations, and stores an allocation whose engagement
rate 2 lies outside `[0, 1]`. -/
theorem c3_no_rate_validation_eval :
    EngagementRate.new 2 = .error .InvalidRate ∧
    (poolB.allocate reqRate2 ProjectCalendar.default).1 = .ok () ∧
    ((poolB.allocate reqRate2 ProjectCalendar.default).2.allocations.map
        (fun a => a.engagement_rate)) = [2] ∧
    ¬ ((2 : ℚ) ≤ 1) := by
  refine ⟨by decide, by decide, by decide, by decide⟩

/-- C2 amended: with the requested resource present and available,
`allocate` fails with `OverCommitted` exactly when the resource has at
least one existing allocation and the engagement sum over the overlapping
ones plus the request's rate exceeds 1; a sum equal to 1 is accepted. The
original claim drops the nonemptiness condition, which the code's
empty-allocations fast path makes necessary. -/
theorem c2_amended_overcommit_iff (p : LocalResourcePool) (req : AllocationRequest)
    (cal : ProjectCalendar) (res : Resource)
    (hres : p.resources.lookup req.resource_id = some res)
    (hav : res.is_available req.time_window cal = true) :
    (p.allocate req cal).1 = .error .OverCommitted ↔
      (p.get_resource_existing_allocations req.resource_id ≠ [] ∧
        1 < (((p.get_resource_existing_allocations req.resource_id).filter
                (fun ra => ra.time_window.overlaps req.time_window)).map
                (fun ra => ra.engagement_rate)).sum + req.engagement_rate) := by
  unfold LocalResourcePool.allocate LocalResourcePool.check_allocation_correct
  simp only [hres, hav, Bool.not_true, Bool.false_eq_true, if_false]
  by_cases hE : p.get_resource_existing_allocations req.resource_id = []
  · simp [hE]
  · have hE2 : (p.get_resource_existing_allocations req.resource_id).isEmpty = false := by
      cases hx : (p.get_resource_existing_allocations req.resource_id).isEmpty
      · rfl
      · exact absurd (List.isEmpty_iff.mp hx) hE
    simp only [hE2, Bool.false_eq_true, if_false]
    unfold AllocationQueryResult.check_correct_timewindow
    split_ifs with hC
    · have hle := of_decide_eq_true hC
      simp only [Except.ok.injEq] at hle ⊢
      constructor
      · intro h
        exact absurd h (by simp)
      · intro ⟨_, hgt⟩
        exact absurd hle (not_le.mpr hgt)
    · have hgt : ¬ ((((p.get_resource_existing_allocations req.resource_id).filter
            (fun ra => ra.time_window.overlaps req.time_window)).map
            (fun ra => ra.engagement_rate)).sum + req.engagement_rate ≤ 1) := fun hh =>
          hC (decide_eq_true hh)
      constructor
      · intro _
        exact ⟨hE, not_le.mp hgt⟩
      · intro _
        trivial

/-- C2 witness: one existing allocation of 4/5 over a week; a request of
3/10 over the same week trips the amended characterisation (the sum 11/10
exceeds 1, so the call fails `OverCommitted`). -/
theorem c2_amended_overcommit_iff_witness :
    poolC2.resources.lookup 1 = some resB ∧
    resB.is_available wWeek ProjectCalendar.default = true ∧
    ((poolC2.allocate reqC2 ProjectCalendar.default).1 = .error .OverCommitted ↔
      (poolC2.get_resource_existing_allocations 1 ≠ [] ∧
        1 < (((poolC2.get_resource_existing_allocations 1).filter
                (fun ra => ra.time_window.overlaps reqC2.time_window)).map
                (fun ra => ra.engagement_rate)).sum + reqC2.engagement_rate)) :=
  ⟨by decide, by decide,
    c2_amended_overcommit_iff poolC2 reqC2 ProjectCalendar.default resB
      (by decide) (by decide)⟩

/-- C2 counterexample: the original claim fails on the code. With the
resource present and available but owning no allocations, a request whose
rate alone already exceeds 1 should fail `OverCommitted` by the claim, yet
the empty-allocations fast path accepts it. -/
theorem c2_counterexample :
    poolB.resources.lookup 1 = some resB ∧
    resB.is_available wMon ProjectCalendar.default = true ∧
    poolB.get_resource_existing_allocations 1 = [] ∧
    1 < (((poolB.get_resource_existing_allocations 1).filter
            (fun ra => ra.time_window.overlaps reqRate2.time_window)).map
            (fun ra => ra.engagement_rate)).sum + reqRate2.engagement_rate ∧
    (poolB.allocate reqRate2 ProjectCalendar.default).1 = .ok () := by
  refine ⟨by decide, by decide, by decide, by decide, by decide⟩

/-- Boolean conjunction truth splits into its conjuncts. -/
lemma and_eq_true_iff {a b : Bool} : (a && b) = true ↔ a = true ∧ b = true := by
  cases a <;> cases b <;> simp

/-- Sums of a nonnegative function over a sublist are bounded by the sum
over the full list. -/
lemma sum_map_sublist_le {α : Type} (f : α → ℚ) {l₁ l₂ : List α} (h : l₁.Sublist l₂)
    (hnn : ∀ a ∈ l₂, 0 ≤ f a) : (l₁.map f).sum ≤ (l₂.map f).sum := by
  induction h with
  | slnil => simp
  | cons a hs ih =>
    simp only [List.map_cons, List.sum_cons]
    have h1 := ih (fun x hx => hnn x (List.mem_cons_of_mem _ hx))
    have h2 := hnn a (List.mem_cons_self _ _)
    linarith
  | cons₂ a hs ih =>
    simp only [List.map_cons, List.sum_cons]
    exact add_le_add_left (ih (fun x hx => hnn x (List.mem_cons_of_mem _ hx))) _

/-- Sums of a nonnegative function over a filter are monotone in the
pointwise strength of the filter. -/
lemma sum_filter_le_of_imp {α : Type} (f : α → ℚ) (p q : α → Bool) (l : List α)
    (himp : ∀ a ∈ l, p a = true → q a = true) (hnn : ∀ a ∈ l, 0 ≤ f a) :
    ((l.filter p).map f).sum ≤ ((l.filter q).map f).sum := by
  induction l with
  | nil => simp
  | cons a l ih =>
    have ih2 := ih (fun x hx hp => himp x (List.mem_cons_of_mem _ hx) hp)
      (fun x hx => hnn x (List.mem_cons_of_mem _ hx))
    by_cases hp : p a = true
    · have hq := himp a (List.mem_cons_self _ _) hp
      rw [List.filter_cons_of_pos hp, List.filter_cons_of_pos hq]
      simp only [List.map_cons, List.sum_cons]
      exact add_le_add_left ih2 _
    · rw [List.filter_cons_of_neg (by simpa using hp)]
      by_cases hq : q a = true
      · rw [List.filter_cons_of_pos hq]
        simp only [List.map_cons, List.sum_cons]
        have h2 := hnn a (List.mem_cons_self _ _)
        linarith
      · rw [List.filter_cons_of_neg (by simpa using hq)]
        exact ih2

/-- Case analysis of a passing allocation check: either the resource had no
allocations at all, or the overlap-filtered engagement sum plus the request
rate stays at or below 1. -/
lemma check_ok_cases (p : LocalResourcePool) (req : AllocationRequest)
    (cal : ProjectCalendar) (h : p.check_allocation_correct req cal = .ok ()) :
    p.get_resource_existing_allocations req.resource_id = [] ∨
    (((p.get_resource_existing_allocations req.resource_id).filter
        (fun ra => ra.time_window.overlaps req.time_window)).map
        (fun ra => ra.engagement_rate)).sum + req.engagement_rate ≤ 1 := by
  unfold LocalResourcePool.check_allocation_correct at h
  cases hl : p.resources.lookup req.resource_id with
  | none => simp [hl] at h
  | some res =>
    simp only [hl] at h
    cases hav : res.is_available req.time_window cal
    · simp [hav] at h
    · simp only [hav, Bool.not_true, Bool.false_eq_true, if_false] at h
      by_cases hE : p.get_resource_existing_allocations req.resource_id = []
      · exact Or.inl hE
      · have hE2 : (p.get_resource_existing_allocations req.resource_id).isEmpty = false := by
          cases hx : (p.get_resource_existing_allocations req.resource_id).isEmpty
          · rfl
          · exact absurd (List.isEmpty_iff.mp hx) hE
        simp only [hE2, Bool.false_eq_true, if_false] at h
        by_cases hQ : (((p.get_resource_existing_allocations req.resource_id).filter
            (fun ra => ra.time_window.overlaps req.time_window)).map
            (fun ra => ra.engagement_rate)).sum + req.engagement_rate ≤ 1
        · exact Or.inr hQ
        · exfalso
          simp [AllocationQueryResult.check_correct_timewindow, hQ] at h

/-- Structural case analysis of `allocate`: on failure the pool is
returned unchanged; on success the resources map is unchanged and the new
allocation is prepended. -/
lemma allocate_cases (p : LocalResourcePool) (req : AllocationRequest)
    (cal : ProjectCalendar) :
    ((p.allocate req cal).2 = p ∧
      ∃ e, (p.allocate req cal).1 = .error e ∧
        p.check_allocation_correct req cal = .error e) ∨
    ((p.allocate req cal).1 = .ok () ∧ p.check_allocation_correct req cal = .ok () ∧
      (p.allocate req cal).2.resources = p.resources ∧
      (p.allocate req cal).2.allocations =
        ResourceAllocation.new req p.next_allocation_id :: p.allocations) := by
  unfold LocalResourcePool.allocate
  cases hc : p.check_allocation_correct req cal with
  | ok u =>
    cases u
    exact Or.inr ⟨rfl, rfl, rfl, rfl⟩
  | error e => exact Or.inl ⟨rfl, e, rfl, rfl⟩

/-- A gated `allocate` call with a rate inside `[0, 1]` preserves the
capacity invariant. -/
lemma allocate_preserves_inv (p : LocalResourcePool) (req : AllocationRequest)
    (cal : ProjectCalendar) (h0 : 0 ≤ req.engagement_rate) (h1 : req.engagement_rate ≤ 1)
    (hI : PoolInv p) : PoolInv (p.allocate req cal).2 := by
  rcases allocate_cases p req cal with ⟨hp, _⟩ | ⟨_, hc, _, hallocs⟩
  · rw [hp]
    exact hI
  · constructor
    · intro a ha
      rw [hallocs] at ha
      rcases List.mem_cons.mp ha with rfl | hmem
      · exact h0
      · exact hI.1 a hmem
    · intro r t
      unfold poolEngagementAt
      rw [hallocs, List.filter_cons]
      by_cases hnew : ((ResourceAllocation.new req p.next_allocation_id).resource_id == r &&
          (ResourceAllocation.new req p.next_allocation_id).time_window.contains t) = true
      · rw [if_pos hnew]
        simp only [List.map_cons, List.sum_cons]
        obtain ⟨hr, ht⟩ := and_eq_true_iff.mp hnew
        have hr2 : (req.resource_id == r) = true := hr
        have hrid : req.resource_id = r := by simpa using hr2
        subst hrid
        have hrate : (ResourceAllocation.new req p.next_allocation_id).engagement_rate =
            req.engagement_rate := rfl
        rw [hrate]
        rcases check_ok_cases p req cal hc with hE | hS
        · unfold LocalResourcePool.get_resource_existing_allocations at hE
          have hle := sum_filter_le_of_imp (fun a => a.engagement_rate)
            (fun a => a.resource_id == req.resource_id && a.time_window.contains t)
            (fun a => a.resource_id == req.resource_id) p.allocations
            (fun a _ hpa => (and_eq_true_iff.mp hpa).1) hI.1
          rw [hE] at hle
          simp only [List.map_nil, List.sum_nil] at hle
          linarith
        · unfold LocalResourcePool.get_resource_existing_allocations at hS
          rw [List.filter_filter] at hS
          have hle := sum_filter_le_of_imp (fun a => a.engagement_rate)
            (fun a => a.resource_id == req.resource_id && a.time_window.contains t)
            (fun a => a.time_window.overlaps req.time_window &&
              (a.resource_id == req.resource_id)) p.allocations
            (fun a _ hpa => ?_) hI.1
          · linarith
          · obtain ⟨hra, hca⟩ := and_eq_true_iff.mp hpa
            refine and_eq_true_iff.mpr ⟨?_, hra⟩
            have htw : req.time_window.contains t = true := ht
            unfold TimeWindow.contains at hca htw
            unfold TimeWindow.overlaps
            obtain ⟨c1, c2⟩ := and_eq_true_iff.mp hca
            obtain ⟨c3, c4⟩ := and_eq_true_iff.mp htw
            have d1 := of_decide_eq_true c1
            have d2 := of_decide_eq_true c2
            have d3 := of_decide_eq_true c3
            have d4 := of_decide_eq_true c4
            refine and_eq_true_iff.mpr ⟨decide_eq_true ?_, decide_eq_true ?_⟩
            · omega
            · omega
      · rw [if_neg hnew]
        exact hI.2 r t

/-- `deallocate` only erases, so it preserves the capacity invariant. -/
lemma deallocate_preserves_inv (p : LocalResourcePool) (allocation_id : Nat)
    (hI : PoolInv p) : PoolInv (p.deallocate allocation_id).2 := by
  unfold LocalResourcePool.deallocate
  split_ifs with h
  · constructor
    · intro a ha
      exact hI.1 a (List.mem_of_mem_eraseP ha)
    · intro r t
      unfold poolEngagementAt
      have hsub := (List.eraseP_sublist (p.allocations)
        (p := fun a => a.id == allocation_id)).filter
        (fun a => a.resource_id == r && a.time_window.contains t)
      exact le_trans
        (sum_map_sublist_le (fun a => a.engagement_rate) hsub
          (fun a ha => hI.1 a (List.mem_of_mem_filter ha)))
        (hI.2 r t)
  · exact hI

/-- `add_resource` never touches the allocations, so the invariant is
untouched. -/
lemma add_resource_preserves_inv (p : LocalResourcePool) (resource : Resource)
    (hI : PoolInv p) : PoolInv (p.add_resource resource).2 := hI

/-- `remove_resource` never touches the allocations, so the invariant is
untouched. -/
lemma remove_resource_preserves_inv (p : LocalResourcePool) (id : Nat)
    (hI : PoolInv p) : PoolInv (p.remove_resource id).2 := by
  unfold LocalResourcePool.remove_resource
  split_ifs with h
  · exact ⟨hI.1, hI.2⟩
  · exact hI

/-- Running any sequence of calls whose allocate rates lie in `[0, 1]`
preserves the capacity invariant. -/
lemma runOps_preserves_inv (ops : List PoolOp) : ∀ p : LocalResourcePool, PoolInv p →
    ops.all opRateOk = true → PoolInv (runOps p ops) := by
  induction ops with
  | nil =>
    intro p hI _
    exact hI
  | cons op rest ih =>
    intro p hI hall
    rw [List.all_cons] at hall
    obtain ⟨hop, hrest⟩ := and_eq_true_iff.mp hall
    refine ih (runStep p op).2 ?_ hrest
    cases op with
    | allocate req cal =>
      unfold opRateOk at hop
      obtain ⟨ha, hb⟩ := and_eq_true_iff.mp hop
      exact allocate_preserves_inv p req cal (of_decide_eq_true ha) (of_decide_eq_true hb) hI
    | deallocate allocation_id => exact deallocate_preserves_inv p allocation_id hI
    | add_resource resource => exact add_resource_preserves_inv p resource hI
    | remove_resource id => exact remove_resource_preserves_inv p id hI

/-- The empty pool satisfies the capacity invariant. -/
lemma poolInv_default : PoolInv LocalResourcePool.default := by
  constructor
  · intro a ha
    simp [LocalResourcePool.default] at ha
  · intro r t
    simp [poolEngagementAt, LocalResourcePool.default]

/-- C1 amended: starting from the empty pool, after any sequence of pool
calls in which every allocate request carries an engagement rate inside
`[0, 1]` (the validation the spec assumes elsewhere), the capacity
invariant holds: at every resource and every instant the stored engagement
rates of the containing allocations sum to at most 1. -/
theorem c1_amended_invariant (ops : List PoolOp) (h : ops.all opRateOk = true)
    (r : Nat) (t : Int) : poolEngagementAt (runOps LocalResourcePool.default ops) r t ≤ 1 :=
  (runOps_preserves_inv ops LocalResourcePool.default poolInv_default h).2 r t

/-- C1 witness: adding a resource and allocating half of it keeps every
engagement sum at or below 1. -/
theorem c1_amended_invariant_witness :
    opsGood.all opRateOk = true ∧
    poolEngagementAt (runOps LocalResourcePool.default opsGood) 1 (20094 * 86400) ≤ 1 :=
  ⟨by decide, c1_amended_invariant opsGood (by decide) 1 (20094 * 86400)⟩

/-- C1 counterexample: the claim fails on the code as stated. Because the
engagement rate is never validated, the successful sequence that adds
resource 1 and allocates it at rate 2 (accepted by the empty-allocations
fast path) drives the engagement sum at the window's first instant to 2,
violating the claimed bound of 1. -/
theorem c1_counterexample :
    opsAllOk LocalResourcePool.default opsBad = true ∧
    ¬ poolEngagementAt (runOps LocalResourcePool.default opsBad) 1 (20094 * 86400) ≤ 1 := by
  refine ⟨by decide, by decide⟩

/-- The day-splitting loop emits a well-formed partition whenever it starts
strictly below its end, by strong induction on the remaining span. -/
lemma splitGo_chain : ∀ (n : Nat) (s e : Int), (e - s).toNat ≤ n → s < e →
    splitGo s e ≠ [] ∧ windowsChain s e (splitGo s e) ∧
    ∀ w ∈ splitGo s e, TimeWindow.new w.date_start w.date_end = .ok w := by
  intro n
  induction n with
  | zero =>
    intro s e hn hlt
    omega
  | succ n ih =>
    intro s e hn hlt
    have hnext : s < nextMidnight s := by
      unfold nextMidnight secondsPerDay
      omega
    have hdvd : secondsPerDay ∣ nextMidnight s :=
      ⟨s / secondsPerDay + 1, by unfold nextMidnight; ring⟩
    rw [splitGo, dif_pos hlt]
    by_cases hcase : nextMidnight s < e
    · have hmin : min (nextMidnight s) e = nextMidnight s := min_eq_left (le_of_lt hcase)
      obtain ⟨hne, hchain, hmem⟩ := ih (nextMidnight s) e (by omega) hcase
      rw [hmin]
      refine ⟨by simp, ?_, ?_⟩
      · exact ⟨rfl, hnext, fun _ => hdvd, hchain⟩
      · intro w hw
        rcases List.mem_cons.mp hw with rfl | hw2
        · dsimp only
          unfold TimeWindow.new
          rw [if_neg (by omega)]
        · exact hmem w hw2
    · have he : e ≤ nextMidnight s := le_of_not_lt hcase
      have hmin : min (nextMidnight s) e = e := min_eq_right he
      have htail : splitGo (nextMidnight s) e = [] := by
        rw [splitGo, dif_neg (by omega)]
      rw [hmin, htail]
      refine ⟨by simp, ?_, ?_⟩
      · exact ⟨rfl, hlt, fun hne => absurd rfl hne, rfl⟩
      · intro w hw
        rcases List.mem_cons.mp hw with rfl | hw2
        · dsimp only
          unfold TimeWindow.new
          rw [if_neg (by omega)]
        · simp at hw2

/-- C10: for every window with `start < end`, `split_by_days` returns a
nonempty chain of day segments: the first starts at the original start,
every segment satisfies `start < end` (so the internal
`TimeWindow::new(...).unwrap()` can never panic), every interior boundary
is a UTC midnight, each segment starts where the previous one ends, and the
last ends at the original end. -/
theorem c10_split_by_days_partition (tw : TimeWindow) (h : tw.date_start < tw.date_end) :
    tw.split_by_days ≠ [] ∧ windowsChain tw.date_start tw.date_end tw.split_by_days ∧
    ∀ w ∈ tw.split_by_days, TimeWindow.new w.date_start w.date_end = .ok w :=
  splitGo_chain (tw.date_end - tw.date_start).toNat tw.date_start tw.date_end le_rfl h

/-- C10 witness: the window from 0 to 100000 seconds (spanning one UTC
midnight) satisfies the hypothesis and gets the partition properties. -/
theorem c10_split_by_days_partition_witness :
    (0 : Int) < 100000 ∧
    ((TimeWindow.mk 0 100000).split_by_days ≠ [] ∧
      windowsChain (TimeWindow.mk 0 100000).date_start (TimeWindow.mk 0 100000).date_end
        (TimeWindow.mk 0 100000).split_by_days ∧
      ∀ w ∈ (TimeWindow.mk 0 100000).split_by_days,
        TimeWindow.new w.date_start w.date_end = .ok w) :=
  ⟨by decide, c10_split_by_days_partition ⟨0, 100000⟩ (by decide)⟩

end RsProject
